import Mathlib

/-!
Verification of `scripts/sync_splash_color.py`.

The script reads a Dart theme-constant file, extracts a hex color with
`re.search(r"themePrimaryColorValue\s*=\s*0xFF([0-9A-Fa-f]{6})", text)`,
and patches two fields of `pubspec.yaml` using
`pattern_root    = (^\s*color:\s*")[#0-9A-Fa-f]+("\s*$)`   (MULTILINE)
`pattern_android12 = (^\s*android_12:\s*\n\s*color:\s*")[#0-9A-Fa-f]+("\s*$)` (MULTILINE)
each via `subn(.., count=1)`, replacing the match with `\1<hex>\2`.

The embedding below works on `List Char`.  Each regex is modelled by a
deterministic matcher: every quantifier in these patterns is greedy and is
followed by a character its class cannot match (`\s*` before `=`, `0`, `c`,
`"`; `[#0-9A-Fa-f]+` before `"`), so greedy matching with backtracking never
revisits a choice, except for the trailing `\s*$`, whose extent does not
affect the replaced text (both capture groups are written back verbatim and
only the color value between the quotes is replaced).  `^` under MULTILINE
holds at position 0 and right after each `'\n'`; the scanner therefore
attempts the anchored match at exactly those positions, left to right, which
is Python's leftmost-match rule.  `\s` is modelled by its ASCII members
(the files involved are ASCII).
-/

/-- ASCII members of Python's `\s` class. -/
def isSpace (c : Char) : Bool :=
  c = ' ' || c = '\t' || c = '\n' || c = '\r' || c = '\x0b' || c = '\x0c'

/-- The class `[0-9A-Fa-f]`. -/
def isHexD (c : Char) : Bool :=
  ('0' ≤ c && c ≤ '9') || ('A' ≤ c && c ≤ 'F') || ('a' ≤ c && c ≤ 'f')

/-- The class `[#0-9A-Fa-f]` of characters allowed in a manifest color value. -/
def isValC (c : Char) : Bool :=
  c = '#' || isHexD c

/-- ASCII uppercasing of one character, as Python's `str.upper` acts on the
ASCII letters (the script only ever applies it to captured hex digits). -/
def upChar (c : Char) : Char :=
  if 'a' ≤ c ∧ c ≤ 'z' then Char.ofNat (c.toNat - 32) else c

/-- Strip a literal off the front of a string; `none` when it does not start
with the literal. -/
def stripL : List Char → List Char → Option (List Char)
  | [], s => some s
  | _ :: _, [] => none
  | c :: cs, d :: ds => if c = d then stripL cs ds else none

/-- `\s*$` under MULTILINE, applied after the closing quote: some run of
whitespace reaches the end of the string or a position followed by `'\n'`. -/
def eolWS : List Char → Bool
  | [] => true
  | c :: r => if c = '\n' then true else if isSpace c then eolWS r else false

/-- Attempt `themePrimaryColorValue\s*=\s*0xFF([0-9A-Fa-f]{6})` at the start
of `s`; returns the six captured digit characters. -/
def tryDeclAt (s : List Char) : Option (List Char) :=
  match stripL "themePrimaryColorValue".toList s with
  | none => none
  | some s1 =>
    match s1.dropWhile isSpace with
    | '=' :: s2 =>
      match stripL "0xFF".toList (s2.dropWhile isSpace) with
      | none => none
      | some s3 =>
        let d := s3.take 6
        if d.length = 6 && d.all isHexD then some d else none
    | _ => none

/-- `re.search`: attempt the declaration pattern at every position, left to
right, returning the first capture. -/
def searchDecl : List Char → Option (List Char)
  | [] => tryDeclAt []
  | c :: r =>
    match tryDeclAt (c :: r) with
    | some d => some d
    | none => searchDecl r

/-- The `SystemExit` message of `extract_theme_hex`. -/
def declErr : List Char :=
  "Could not find `themePrimaryColorValue = 0xFF......` in app_config.dart".toList

/-- `extract_theme_hex`: search the declaration text and return
`'#' + captured.upper()`, or exit with `declErr`. -/
def extract_theme_hex (t : List Char) : Except (List Char) (List Char) :=
  match searchDecl t with
  | some d => .ok ('#' :: d.map upChar)
  | none => .error declErr

/-- Attempt `(^\s*color:\s*")[#0-9A-Fa-f]+("\s*$)` at a `^` position.
Returns `(before, value, after)` with the attempted suffix equal to
`before ++ value ++ after`; `before` ends at the opening quote and `after`
starts at the closing quote, so replacing `value` is exactly what
`subn(r"\1<hex>\2", ..)` writes for this match. -/
def tryRootAt (s : List Char) : Option (List Char × List Char × List Char) :=
  match stripL "color:".toList (s.dropWhile isSpace) with
  | none => none
  | some s2 =>
    match s2.dropWhile isSpace with
    | '"' :: s4 =>
      match s4.takeWhile isValC, s4.dropWhile isValC with
      | vh :: vt, '"' :: s6 =>
        if eolWS s6 then
          some (s.takeWhile isSpace ++ "color:".toList ++ s2.takeWhile isSpace ++ ['"'],
                vh :: vt, '"' :: s6)
        else none
      | _, _ => none
    | _ => none

/-- Attempt `(^\s*android_12:\s*\n\s*color:\s*")[#0-9A-Fa-f]+("\s*$)` at a
`^` position.  The sub-pattern `\s*\n\s*` matches a whitespace run containing
at least one `'\n'` (the engine backtracks `\s*\n` to the last newline of the
run; every split leads to the same continuation). -/
def tryA12At (s : List Char) : Option (List Char × List Char × List Char) :=
  match stripL "android_12:".toList (s.dropWhile isSpace) with
  | none => none
  | some s2 =>
    if (s2.takeWhile isSpace).contains '\n' then
      match stripL "color:".toList (s2.dropWhile isSpace) with
      | none => none
      | some s3 =>
        match s3.dropWhile isSpace with
        | '"' :: s5 =>
          match s5.takeWhile isValC, s5.dropWhile isValC with
          | vh :: vt, '"' :: s7 =>
            if eolWS s7 then
              some (s.takeWhile isSpace ++ "android_12:".toList ++ s2.takeWhile isSpace ++
                    "color:".toList ++ s3.takeWhile isSpace ++ ['"'],
                    vh :: vt, '"' :: s7)
            else none
          | _, _ => none
        | _ => none
    else none

/-- Scan for the leftmost MULTILINE-anchored match: attempt `tr` at position 0
when `lb` (line begin) holds and after every `'\n'`.  The skipped characters
are accumulated onto the `before` component of the result. -/
def scanWith (tr : List Char → Option (List Char × List Char × List Char)) :
    Bool → List Char → Option (List Char × List Char × List Char)
  | lb, [] => if lb then tr [] else none
  | lb, c :: rest =>
    match (if lb then tr (c :: rest) else none) with
    | some r => some r
    | none =>
      match scanWith tr (c = '\n') rest with
      | some (a, u, b) => some (c :: a, u, b)
      | none => none

/-- `pattern_root.subn(r"\1<hex>\2", text, count=1)`. -/
def subnRoot (hex t : List Char) : List Char × Nat :=
  match scanWith tryRootAt true t with
  | none => (t, 0)
  | some (a, _, b) => (a ++ hex ++ b, 1)

/-- `pattern_android12.subn(r"\1<hex>\2", text, count=1)`. -/
def subnA12 (hex t : List Char) : List Char × Nat :=
  match scanWith tryA12At true t with
  | none => (t, 0)
  | some (a, _, b) => (a ++ hex ++ b, 1)

/-- The `SystemExit` message of `update_pubspec`. -/
def pubspecErr : List Char :=
  "Could not update flutter_native_splash colors in pubspec.yaml. Expected `color` and `android_12 -> color` entries.".toList

/-- `update_pubspec`: substitute the first root match, then the first
android_12 match of the intermediate text; fail when either count is zero;
otherwise return the new text and whether it differs from the input (the
script writes the file exactly when it differs). -/
def update_pubspec (hex t : List Char) : Except (List Char) (List Char × Bool) :=
  let r1 := subnRoot hex t
  let r2 := subnA12 hex r1.1
  if r1.2 = 0 ∨ r2.2 = 0 then .error pubspecErr
  else if r2.1 = t then .ok (r2.1, false) else .ok (r2.1, true)

/-- The two files the script touches. -/
structure FileSys where
  app_config : List Char
  pubspec : List Char
deriving DecidableEq

deriving instance DecidableEq for Except

/-- `main`: extract, update, overwrite the manifest when changed, and print
one status line.  Returns the resulting file system and either the error
message of the aborting `SystemExit` (files untouched) or the printed line. -/
def main_run (fs : FileSys) : FileSys × Except (List Char) (List Char) :=
  match extract_theme_hex fs.app_config with
  | .error e => (fs, .error e)
  | .ok hex =>
    match update_pubspec hex fs.pubspec with
    | .error e => (fs, .error e)
    | .ok (t2, changed) =>
      (if changed then { fs with pubspec := t2 } else fs,
       .ok ("Splash color ".toList ++
            (if changed then "updated".toList else "already in sync".toList) ++
            ": ".toList ++ hex))

/-! ### Basic lemmas about the string primitives -/

theorem tw_frame {p : Char → Bool} {c : Char} (hc : p c = false) (x z : List Char) :
    (x ++ c :: z).takeWhile p = x.takeWhile p := by
  induction x with
  | nil => simp [List.takeWhile_cons, hc]
  | cons a x ih =>
    simp only [List.cons_append, List.takeWhile_cons]
    cases hp : p a <;> simp [ih]

theorem dw_frame {p : Char → Bool} {c : Char} (hc : p c = false) (x z : List Char) :
    (x ++ c :: z).dropWhile p = x.dropWhile p ++ c :: z := by
  induction x with
  | nil => simp [List.dropWhile_cons, hc]
  | cons a x ih =>
    simp only [List.cons_append, List.dropWhile_cons]
    cases hp : p a <;> simp [ih]

theorem tw_all {p : Char → Bool} {x : List Char} (h : x.all p = true) :
    x.takeWhile p = x := by
  induction x with
  | nil => rfl
  | cons a x ih =>
    simp only [List.all_cons, Bool.and_eq_true] at h
    simp [List.takeWhile_cons, h.1, ih h.2]

theorem dw_all {p : Char → Bool} {x : List Char} (h : x.all p = true) :
    x.dropWhile p = [] := by
  induction x with
  | nil => rfl
  | cons a x ih =>
    simp only [List.all_cons, Bool.and_eq_true] at h
    simp [List.dropWhile_cons, h.1, ih h.2]

theorem all_takeWhile (p : Char → Bool) (x : List Char) :
    (x.takeWhile p).all p = true := by
  induction x with
  | nil => rfl
  | cons a x ih =>
    simp only [List.takeWhile_cons]
    cases hp : p a <;> simp [hp, ih]

theorem stripL_sound {l s r : List Char} (h : stripL l s = some r) : s = l ++ r := by
  induction l generalizing s with
  | nil => simpa [stripL] using h
  | cons c cs ih =>
    cases s with
    | nil => simp [stripL] at h
    | cons d ds =>
      simp only [stripL] at h
      split at h
      · next he => subst he; simpa using ih h
      · exact absurd h (by simp)

theorem stripL_self (l s : List Char) : stripL l (l ++ s) = some s := by
  induction l with
  | nil => rfl
  | cons c cs ih => simp [stripL, ih]

theorem stripL_frame {l : List Char} {c : Char} (hc : c ∉ l) (x z : List Char) :
    stripL l (x ++ c :: z) = (stripL l x).map (· ++ c :: z) := by
  induction l generalizing x with
  | nil => simp [stripL]
  | cons a l ih =>
    cases x with
    | nil =>
      have hac : (a = c) = False := by
        simp only [eq_iff_iff, iff_false]
        intro h; exact hc (h ▸ List.mem_cons_self a l)
      simp [stripL, hac]
    | cons b x =>
      simp only [List.cons_append, stripL]
      split
      · exact ih (fun h => hc (List.mem_cons_of_mem a h)) x
      · simp

/-- `eolWS` when the whitespace run is known to stop strictly before the end
of the list: like `eolWS` but failing at the end. -/
def eolHard : List Char → Bool
  | [] => false
  | c :: r => if c = '\n' then true else if isSpace c then eolHard r else false

theorem eolWS_frame {c : Char} (hc : isSpace c = false) (x z : List Char) :
    eolWS (x ++ c :: z) = eolHard x := by
  induction x with
  | nil =>
    have hcn : (c = '\n') = False := by
      simp only [eq_iff_iff, iff_false]
      intro h; subst h; simp [isSpace] at hc
    simp [eolWS, eolHard, hcn, hc]
  | cons a x ih =>
    simp only [List.cons_append, eolWS, eolHard]
    split
    · rfl
    · split
      · exact ih
      · rfl

theorem valC_not_space {c : Char} (h : isValC c = true) : isSpace c = false := by
  cases hs : isSpace c
  · rfl
  · exfalso
    simp only [isSpace, Bool.or_eq_true, decide_eq_true_eq] at hs
    rcases hs with ((((h1 | h1) | h1) | h1) | h1) | h1 <;>
      (subst h1; exact absurd h (by decide))

theorem valC_ne_nl {c : Char} (h : isValC c = true) : c ≠ '\n' := by
  intro he; subst he; exact absurd h (by decide)

theorem eolWS_val {v : List Char} (hne : v ≠ []) (hva : v.all isValC = true)
    (z : List Char) : eolWS (v ++ z) = false := by
  cases v with
  | nil => exact absurd rfl hne
  | cons a v =>
    simp only [List.all_cons, Bool.and_eq_true] at hva
    have h1 : (a = '\n') = False := by
      simp only [eq_iff_iff, iff_false]; exact valC_ne_nl hva.1
    simp [eolWS, h1, valC_not_space hva.1]

/-! ### The declaration pattern -/

theorem isValC_upChar {c : Char} (h : isHexD c = true) : isValC (upChar c) = true := by
  simp only [isHexD, Bool.or_eq_true, Bool.and_eq_true, decide_eq_true_eq] at h
  unfold upChar
  rcases h with hDU | ⟨h1, h2⟩
  · have hno : ¬('a' ≤ c ∧ c ≤ 'z') := by
      rintro ⟨ha, -⟩
      have n3 : 97 ≤ c.toNat := ha
      rcases hDU with ⟨h1, h2⟩ | ⟨h1, h2⟩
      · have n2 : c.toNat ≤ 57 := h2; omega
      · have n2 : c.toNat ≤ 70 := h2; omega
    rw [if_neg hno]
    simp only [isValC, isHexD, Bool.or_eq_true, Bool.and_eq_true, decide_eq_true_eq]
    right
    rcases hDU with ⟨h1, h2⟩ | ⟨h1, h2⟩
    · exact Or.inl (Or.inl ⟨h1, h2⟩)
    · exact Or.inl (Or.inr ⟨h1, h2⟩)
  · have n1 : 97 ≤ c.toNat := h1
    have n2 : c.toNat ≤ 102 := h2
    have h' : c.toNat = 97 ∨ c.toNat = 98 ∨ c.toNat = 99 ∨ c.toNat = 100 ∨
        c.toNat = 101 ∨ c.toNat = 102 := by omega
    have hc : c = 'a' ∨ c = 'b' ∨ c = 'c' ∨ c = 'd' ∨ c = 'e' ∨ c = 'f' := by
      rcases h' with h' | h' | h' | h' | h' | h'
      · exact Or.inl (Char.ext (UInt32.ext h'))
      · exact Or.inr (Or.inl (Char.ext (UInt32.ext h')))
      · exact Or.inr (Or.inr (Or.inl (Char.ext (UInt32.ext h'))))
      · exact Or.inr (Or.inr (Or.inr (Or.inl (Char.ext (UInt32.ext h')))))
      · exact Or.inr (Or.inr (Or.inr (Or.inr (Or.inl (Char.ext (UInt32.ext h'))))))
      · exact Or.inr (Or.inr (Or.inr (Or.inr (Or.inr (Char.ext (UInt32.ext h'))))))
    rcases hc with h' | h' | h' | h' | h' | h' <;> (subst h'; decide)

theorem tryDeclAt_at (d s : List Char) (h6 : d.length = 6) (hd : d.all isHexD = true) :
    tryDeclAt ("themePrimaryColorValue = 0xFF".toList ++ (d ++ s)) = some d := by
  have hsplit : ("themePrimaryColorValue = 0xFF".toList : List Char) =
      "themePrimaryColorValue".toList ++ (' ' :: '=' :: ' ' :: '0' :: 'x' :: 'F' :: 'F' :: []) := by
    decide
  have h0 : ("0xFF".toList : List Char) = '0' :: 'x' :: 'F' :: 'F' :: [] := by decide
  have h1 : isSpace ' ' = true := by decide
  have h2 : isSpace '=' = false := by decide
  have h3 : isSpace '0' = false := by decide
  have ht : (d ++ s).take 6 = d := by rw [← h6]; exact List.take_left d s
  rw [hsplit, List.append_assoc]
  simp only [tryDeclAt, stripL_self, h0, stripL, List.cons_append, List.dropWhile_cons,
    h1, h2, h3, if_true, if_false, List.nil_append, Bool.false_eq_true, reduceIte,
    reduceCtorEq]
  simp [ht, h6, hd, List.dropWhile_cons, h1, h2, h3, stripL, stripL_self]

theorem tryDeclAt_hex {s d : List Char} (h : tryDeclAt s = some d) :
    d.length = 6 ∧ d.all isHexD = true := by
  unfold tryDeclAt at h
  repeat' split at h
  all_goals simp_all
  rcases h with ⟨⟨hl, -⟩, hd2⟩
  rw [← hd2]
  simp only [List.length_take]
  omega

theorem searchDecl_hex {t d : List Char} (h : searchDecl t = some d) :
    d.length = 6 ∧ d.all isHexD = true := by
  induction t with
  | nil => exact tryDeclAt_hex h
  | cons c r ih =>
    rw [searchDecl] at h
    split at h
    · next he => cases h; exact tryDeclAt_hex he
    · exact ih h

theorem searchDecl_exists {t₀ d : List Char} (h : tryDeclAt t₀ = some d) :
    ∀ p, ∃ d', searchDecl (p ++ t₀) = some d' := by
  intro p
  induction p with
  | nil =>
    cases t₀ with
    | nil => exact ⟨d, h⟩
    | cons c r => exact ⟨d, by simp only [searchDecl]; rw [h]⟩
  | cons c p ih =>
    rcases ih with ⟨d', hd'⟩
    rw [List.cons_append]
    simp only [searchDecl]
    cases ht : tryDeclAt (c :: (p ++ t₀)) with
    | some d2 => exact ⟨d2, rfl⟩
    | none => exact ⟨d', hd'⟩

theorem searchDecl_first {t₀ d : List Char} (h : tryDeclAt t₀ = some d) :
    ∀ p, (∀ i, i < p.length → tryDeclAt ((p ++ t₀).drop i) = none) →
    searchDecl (p ++ t₀) = some d := by
  intro p
  induction p with
  | nil =>
    intro _
    cases t₀ with
    | nil => exact h
    | cons c r => simp only [searchDecl]; rw [h]
  | cons c p ih =>
    intro hnone
    rw [List.cons_append]
    simp only [searchDecl]
    have h0 : tryDeclAt (c :: (p ++ t₀)) = none := by
      have := hnone 0 (by simp)
      simpa using this
    rw [h0]
    exact ih (fun i hi => by
      have := hnone (i + 1) (by simpa using hi)
      simpa using this)

theorem extract_shape {t hex : List Char} (h : extract_theme_hex t = .ok hex) :
    hex ≠ [] ∧ hex.all isValC = true := by
  unfold extract_theme_hex at h
  split at h
  · next d hd =>
    cases h
    refine ⟨by simp, ?_⟩
    have hx := (searchDecl_hex hd).2
    simp only [List.all_cons, List.all_map, Bool.and_eq_true]
    refine ⟨by decide, ?_⟩
    simp only [List.all_eq_true] at hx ⊢
    intro c hc
    exact isValC_upChar (hx c hc)
  · exact absurd h (by simp)

/-! ### Inversion of the two manifest matchers -/

theorem tryRootAt_sound {s a v b : List Char} (h : tryRootAt s = some (a, v, b)) :
    s = a ++ v ++ b ∧ v ≠ [] ∧ v.all isValC = true ∧
    (∃ a₀, a = a₀ ++ ['"']) ∧ ∃ b₀, b = '"' :: b₀ := by
  unfold tryRootAt at h
  split at h
  · exact absurd h (by simp)
  next s2 heq1 =>
    split at h
    next s4 heq2 =>
      split at h
      next vh vt s6 heq3 heq4 =>
        split at h
        next heol =>
          simp only [Option.some_inj, Prod.mk.injEq] at h
          obtain ⟨ha, hv, hb⟩ := h
          subst ha hv hb
          have e1 : s.takeWhile isSpace ++ s.dropWhile isSpace = s :=
            List.takeWhile_append_dropWhile isSpace s
          have e2 : s.dropWhile isSpace = "color:".toList ++ s2 := stripL_sound heq1
          have e3 : s2.takeWhile isSpace ++ s2.dropWhile isSpace = s2 :=
            List.takeWhile_append_dropWhile isSpace s2
          have e4 : s4.takeWhile isValC ++ s4.dropWhile isValC = s4 :=
            List.takeWhile_append_dropWhile isValC s4
          refine ⟨?_, by simp, by rw [← heq3]; exact all_takeWhile isValC s4, ⟨_, rfl⟩, ⟨_, rfl⟩⟩
          calc s = s.takeWhile isSpace ++ s.dropWhile isSpace := e1.symm
            _ = s.takeWhile isSpace ++ ("color:".toList ++ s2) := by rw [e2]
            _ = s.takeWhile isSpace ++ ("color:".toList ++
                (s2.takeWhile isSpace ++ s2.dropWhile isSpace)) := by rw [e3]
            _ = s.takeWhile isSpace ++ ("color:".toList ++
                (s2.takeWhile isSpace ++ ('"' :: s4))) := by rw [heq2]
            _ = s.takeWhile isSpace ++ ("color:".toList ++ (s2.takeWhile isSpace ++
                ('"' :: (s4.takeWhile isValC ++ s4.dropWhile isValC)))) := by rw [e4]
            _ = s.takeWhile isSpace ++ ("color:".toList ++ (s2.takeWhile isSpace ++
                ('"' :: ((vh :: vt) ++ ('"' :: s6))))) := by rw [heq3, heq4]
            _ = s.takeWhile isSpace ++ "color:".toList ++ s2.takeWhile isSpace ++ ['"'] ++
                (vh :: vt) ++ ('"' :: s6) := by simp
            _ = _ := by simp
        · exact absurd h (by simp)
      · exact absurd h (by simp)
    · exact absurd h (by simp)

theorem tryA12At_sound {s a v b : List Char} (h : tryA12At s = some (a, v, b)) :
    s = a ++ v ++ b ∧ v ≠ [] ∧ v.all isValC = true ∧
    (∃ a₀, a = a₀ ++ ['"']) ∧ ∃ b₀, b = '"' :: b₀ := by
  unfold tryA12At at h
  split at h
  · exact absurd h (by simp)
  next s2 heq1 =>
    split at h
    · split at h
      · exact absurd h (by simp)
      next s3 heq2 =>
        split at h
        next s5 heq3 =>
          split at h
          next vh vt s7 heq4 heq5 =>
            split at h
            next heol =>
              simp only [Option.some_inj, Prod.mk.injEq] at h
              obtain ⟨ha, hv, hb⟩ := h
              subst ha hv hb
              have e1 : s.takeWhile isSpace ++ s.dropWhile isSpace = s :=
                List.takeWhile_append_dropWhile isSpace s
              have e2 : s.dropWhile isSpace = "android_12:".toList ++ s2 := stripL_sound heq1
              have e3 : s2.takeWhile isSpace ++ s2.dropWhile isSpace = s2 :=
                List.takeWhile_append_dropWhile isSpace s2
              have e4 : s2.dropWhile isSpace = "color:".toList ++ s3 := stripL_sound heq2
              have e5 : s3.takeWhile isSpace ++ s3.dropWhile isSpace = s3 :=
                List.takeWhile_append_dropWhile isSpace s3
              have e6 : s5.takeWhile isValC ++ s5.dropWhile isValC = s5 :=
                List.takeWhile_append_dropWhile isValC s5
              refine ⟨?_, by simp, by rw [← heq4]; exact all_takeWhile isValC s5, ⟨_, rfl⟩, ⟨_, rfl⟩⟩
              calc s = s.takeWhile isSpace ++ s.dropWhile isSpace := e1.symm
                _ = s.takeWhile isSpace ++ ("android_12:".toList ++ s2) := by rw [e2]
                _ = s.takeWhile isSpace ++ ("android_12:".toList ++
                    (s2.takeWhile isSpace ++ s2.dropWhile isSpace)) := by rw [e3]
                _ = s.takeWhile isSpace ++ ("android_12:".toList ++
                    (s2.takeWhile isSpace ++ ("color:".toList ++ s3))) := by rw [e4]
                _ = s.takeWhile isSpace ++ ("android_12:".toList ++ (s2.takeWhile isSpace ++
                    ("color:".toList ++ (s3.takeWhile isSpace ++ s3.dropWhile isSpace)))) := by
                  rw [e5]
                _ = s.takeWhile isSpace ++ ("android_12:".toList ++ (s2.takeWhile isSpace ++
                    ("color:".toList ++ (s3.takeWhile isSpace ++ ('"' :: s5))))) := by rw [heq3]
                _ = s.takeWhile isSpace ++ ("android_12:".toList ++ (s2.takeWhile isSpace ++
                    ("color:".toList ++ (s3.takeWhile isSpace ++
                    ('"' :: (s5.takeWhile isValC ++ s5.dropWhile isValC)))))) := by rw [e6]
                _ = s.takeWhile isSpace ++ ("android_12:".toList ++ (s2.takeWhile isSpace ++
                    ("color:".toList ++ (s3.takeWhile isSpace ++
                    ('"' :: ((vh :: vt) ++ ('"' :: s7))))))) := by rw [heq4, heq5]
                _ = _ := by simp
            · exact absurd h (by simp)
          · exact absurd h (by simp)
        · exact absurd h (by simp)
    · exact absurd h (by simp)

/-! ### Generic facts about the MULTILINE scanner -/

theorem scanWith_skip (tr : List Char → Option (List Char × List Char × List Char))
    (u t : List Char) (hu : ∀ c ∈ u, c ≠ '\n') :
    scanWith tr false (u ++ t) =
      (scanWith tr false t).map (fun r => (u ++ r.1, r.2.1, r.2.2)) := by
  induction u with
  | nil =>
    cases h : scanWith tr false t with
    | none => simp [h]
    | some r => simp [h]
  | cons c u ih =>
    have hc : (decide (c = '\n')) = false := by
      simp only [decide_eq_false_iff_not]
      exact hu c (List.mem_cons_self c u)
    simp only [List.cons_append, scanWith, Bool.false_eq_true, if_false, hc,
      List.append_eq]
    rw [ih (fun d hd => hu d (List.mem_cons_of_mem c hd))]
    cases h : scanWith tr false t with
    | none => simp
    | some r => simp

theorem scanWith_decomp (tr : List Char → Option (List Char × List Char × List Char))
    (hsound : ∀ s p u q, tr s = some (p, u, q) → s = p ++ u ++ q) :
    ∀ t lb a u b, scanWith tr lb t = some (a, u, b) →
    ∃ sk pre, a = sk ++ pre ∧ tr (pre ++ u ++ b) = some (pre, u, b) ∧
      t = sk ++ (pre ++ u ++ b) ∧
      ∀ x y', sk = x ++ y' → y' ≠ [] →
        ((x = [] ∧ lb = true) ∨ ∃ x', x = x' ++ ['\n']) →
        tr (y' ++ (pre ++ u ++ b)) = none := by
  intro t
  induction t with
  | nil =>
    intro lb a u b h
    cases lb with
    | false => exact absurd h (by simp [scanWith])
    | true =>
      simp only [scanWith, if_true] at h
      have he : ([] : List Char) = a ++ u ++ b := hsound [] a u b h
      obtain ⟨ha, hu', hb⟩ : a = [] ∧ u = [] ∧ b = [] := by
        rcases List.append_eq_nil.mp he.symm with ⟨h1, h2⟩
        rcases List.append_eq_nil.mp h1 with ⟨h3, h4⟩
        exact ⟨h3, h4, h2⟩
      subst ha hu' hb
      exact ⟨[], [], rfl, h, rfl, fun x y' hxy hyne _ =>
        absurd (List.append_eq_nil.mp hxy.symm).2 hyne⟩
  | cons c rest ih =>
    intro lb a u b h
    simp only [scanWith] at h
    rcases htry : (if lb = true then tr (c :: rest) else none) with _ | r
    · rw [htry] at h
      rcases hs : scanWith tr (decide (c = '\n')) rest with _ | ⟨a', u', b'⟩
      · rw [hs] at h; exact absurd h (by simp)
      · rw [hs] at h
        simp only [Option.some_inj, Prod.mk.injEq] at h
        obtain ⟨ha, hu', hb⟩ := h
        subst hu'
        subst hb
        obtain ⟨sk', pre, hask, htr', hrest, hfirst⟩ := ih (decide (c = '\n')) a' u' b' hs
        subst ha hask
        refine ⟨c :: sk', pre, by simp, htr', by simp [hrest], ?_⟩
        intro x y' hxy hyne hcond
        cases x with
        | nil =>
          simp only [List.nil_append] at hxy
          rcases hcond with ⟨-, hlb⟩ | ⟨x', hx'⟩
          · subst hlb
            simp only [if_true] at htry
            rw [← hxy]
            simpa [hrest] using htry
          · exact absurd hx'.symm (by simp)
        | cons d x₂ =>
          simp only [List.cons_append, List.cons.injEq] at hxy
          obtain ⟨hd, hsk'⟩ := hxy
          subst hd
          rcases hcond with ⟨habs, -⟩ | ⟨x', hx'⟩
          · exact absurd habs (by simp)
          · cases x' with
            | nil =>
              simp only [List.nil_append, List.cons.injEq] at hx'
              obtain ⟨hc, hx₂⟩ := hx'
              subst hc
              subst hx₂
              exact hfirst [] y' hsk' hyne (Or.inl ⟨rfl, by simp⟩)
            | cons e x₃ =>
              simp only [List.cons_append, List.cons.injEq] at hx'
              obtain ⟨he, hx₂⟩ := hx'
              subst hx₂
              exact hfirst (x₃ ++ ['\n']) y' hsk' hyne (Or.inr ⟨x₃, rfl⟩)
    · rw [htry] at h
      simp only [Option.some_inj] at h
      subst h
      cases lb with
      | false => exact absurd htry (by simp)
      | true =>
        simp only [if_true] at htry
        have he := hsound _ _ _ _ htry
        refine ⟨[], a, by simp, by rw [← he]; exact htry, by simp [he], ?_⟩
        intro x y' hxy hyne _
        exact absurd (List.append_eq_nil.mp hxy.symm).2 hyne

theorem scanRoot_sound {t a v b : List Char}
    (h : scanWith tryRootAt true t = some (a, v, b)) :
    t = a ++ v ++ b ∧ v ≠ [] ∧ v.all isValC = true ∧
    (∃ a₀, a = a₀ ++ ['"']) ∧ ∃ b₀, b = '"' :: b₀ := by
  obtain ⟨sk, pre, ha, htr, ht, -⟩ :=
    scanWith_decomp tryRootAt (fun s p u q h' => (tryRootAt_sound h').1) t true a v b h
  obtain ⟨-, hne, hall, ⟨a₀, ha₀⟩, hb⟩ := tryRootAt_sound htr
  subst ha
  exact ⟨by simp [ht], hne, hall, ⟨sk ++ a₀, by simp [ha₀]⟩, hb⟩

theorem scanA12_sound {t a v b : List Char}
    (h : scanWith tryA12At true t = some (a, v, b)) :
    t = a ++ v ++ b ∧ v ≠ [] ∧ v.all isValC = true ∧
    (∃ a₀, a = a₀ ++ ['"']) ∧ ∃ b₀, b = '"' :: b₀ := by
  obtain ⟨sk, pre, ha, htr, ht, -⟩ :=
    scanWith_decomp tryA12At (fun s p u q h' => (tryA12At_sound h').1) t true a v b h
  obtain ⟨-, hne, hall, ⟨a₀, ha₀⟩, hb⟩ := tryA12At_sound htr
  subst ha
  exact ⟨by simp [ht], hne, hall, ⟨sk ++ a₀, by simp [ha₀]⟩, hb⟩

/-! ### Replacing a quoted value does not disturb matching elsewhere

`TrySwap v w x y rv rw` relates the outcomes of one anchored match attempt on
the two texts `x ++ '"' :: (v ++ '"' :: y)` and `x ++ '"' :: (w ++ '"' :: y)`,
which differ only in the quoted value (`v` resp. `w`, both nonempty value
strings): either both attempts fail, or both succeed on a quoted value lying
inside `x` (same prefix and value, tails differing only by the swap), or both
succeed exactly on the swapped value. -/
def TrySwap (v w x y : List Char)
    (rv rw : Option (List Char × List Char × List Char)) : Prop :=
  (rv = none ∧ rw = none)
  ∨ (∃ a u β, rv = some (a, u, β ++ '"' :: (v ++ '"' :: y)) ∧
              rw = some (a, u, β ++ '"' :: (w ++ '"' :: y)))
  ∨ (rv = some (x ++ ['"'], v, '"' :: y) ∧ rw = some (x ++ ['"'], w, '"' :: y))

theorem tryRoot_swap (v w y : List Char) (hv : v ≠ []) (hva : v.all isValC = true)
    (hw : w ≠ []) (hwa : w.all isValC = true) (x : List Char) :
    TrySwap v w x y (tryRootAt (x ++ '"' :: (v ++ '"' :: y)))
                    (tryRootAt (x ++ '"' :: (w ++ '"' :: y))) := by
  have hqs : isSpace '"' = false := by decide
  have hqv : isValC '"' = false := by decide
  have hqc : '"' ∉ "color:".toList := by decide
  have d1v := dw_frame hqs x (v ++ '"' :: y)
  have d1w := dw_frame hqs x (w ++ '"' :: y)
  have t1v := tw_frame hqs x (v ++ '"' :: y)
  have t1w := tw_frame hqs x (w ++ '"' :: y)
  rcases hC : stripL "color:".toList (x.dropWhile isSpace) with _ | x2
  · refine Or.inl ⟨?_, ?_⟩
    · simp only [tryRootAt, d1v, stripL_frame hqc, hC, Option.map_none']
    · simp only [tryRootAt, d1w, stripL_frame hqc, hC, Option.map_none']
  · have sv : stripL "color:".toList ((x ++ '"' :: (v ++ '"' :: y)).dropWhile isSpace)
        = some (x2 ++ '"' :: (v ++ '"' :: y)) := by
      rw [d1v, stripL_frame hqc, hC]; rfl
    have sw : stripL "color:".toList ((x ++ '"' :: (w ++ '"' :: y)).dropWhile isSpace)
        = some (x2 ++ '"' :: (w ++ '"' :: y)) := by
      rw [d1w, stripL_frame hqc, hC]; rfl
    have d2v := dw_frame hqs x2 (v ++ '"' :: y)
    have d2w := dw_frame hqs x2 (w ++ '"' :: y)
    have t2v := tw_frame hqs x2 (v ++ '"' :: y)
    have t2w := tw_frame hqs x2 (w ++ '"' :: y)
    rcases hx3 : x2.dropWhile isSpace with _ | ⟨c, x4⟩
    · -- the opening quote of the match is the quote guarding the swap
      have hvtw : (v ++ '"' :: y).takeWhile isValC = v := by
        rw [tw_frame hqv]; exact tw_all hva
      have hvdw : (v ++ '"' :: y).dropWhile isValC = '"' :: y := by
        rw [dw_frame hqv, dw_all hva]; rfl
      have hwtw : (w ++ '"' :: y).takeWhile isValC = w := by
        rw [tw_frame hqv]; exact tw_all hwa
      have hwdw : (w ++ '"' :: y).dropWhile isValC = '"' :: y := by
        rw [dw_frame hqv, dw_all hwa]; rfl
      have hx : x = x.takeWhile isSpace ++ ("color:".toList ++ x2.takeWhile isSpace) := by
        conv_lhs => rw [← List.takeWhile_append_dropWhile isSpace x]
        rw [stripL_sound hC]
        congr 1
        conv_lhs => rw [← List.takeWhile_append_dropWhile isSpace x2, hx3]
        simp
      rcases v with _ | ⟨vh0, vt0⟩
      · exact absurd rfl hv
      rcases w with _ | ⟨wh0, wt0⟩
      · exact absurd rfl hw
      rcases heol : eolWS y with _ | _
      · refine Or.inl ⟨?_, ?_⟩
        · simp only [tryRootAt, sv, d2v, t2v, hx3, List.nil_append, hvtw, hvdw, heol]
          all_goals rfl
        · simp only [tryRootAt, sw, d2w, t2w, hx3, List.nil_append, hwtw, hwdw, heol]
          all_goals rfl
      · refine Or.inr (Or.inr ⟨?_, ?_⟩)
        · simp only [tryRootAt, sv, d2v, t2v, t1v, hx3, List.nil_append, hvtw, hvdw, heol,
            if_true, Option.some_inj, Prod.mk.injEq]
          refine ⟨?_, trivial⟩
          conv_rhs => rw [hx]
          simp
        · simp only [tryRootAt, sw, d2w, t2w, t1w, hx3, List.nil_append, hwtw, hwdw, heol,
            if_true, Option.some_inj, Prod.mk.injEq]
          refine ⟨?_, trivial⟩
          conv_rhs => rw [hx]
          simp
    · by_cases hcq : c = '"'
      · subst hcq
        have d3v := dw_frame hqv x4 (v ++ '"' :: y)
        have d3w := dw_frame hqv x4 (w ++ '"' :: y)
        have t3v := tw_frame hqv x4 (v ++ '"' :: y)
        have t3w := tw_frame hqv x4 (w ++ '"' :: y)
        rcases htw : x4.takeWhile isValC with _ | ⟨uh, ut⟩
        · refine Or.inl ⟨?_, ?_⟩
          · simp only [tryRootAt, sv, d2v, hx3, List.cons_append, d3v, t3v, htw]
          · simp only [tryRootAt, sw, d2w, hx3, List.cons_append, d3w, t3w, htw]
        · rcases hdw : x4.dropWhile isValC with _ | ⟨e, x6⟩
          · refine Or.inl ⟨?_, ?_⟩
            · simp only [tryRootAt, sv, d2v, hx3, List.cons_append, d3v, t3v, htw, hdw,
                List.nil_append, eolWS_val hv hva]
              all_goals rfl
            · simp only [tryRootAt, sw, d2w, hx3, List.cons_append, d3w, t3w, htw, hdw,
                List.nil_append, eolWS_val hw hwa]
              all_goals rfl
          · by_cases heq : e = '"'
            · subst heq
              have heolv : eolWS (x6 ++ '"' :: (v ++ '"' :: y)) = eolHard x6 :=
                eolWS_frame hqs x6 _
              have heolw : eolWS (x6 ++ '"' :: (w ++ '"' :: y)) = eolHard x6 :=
                eolWS_frame hqs x6 _
              rcases hhard : eolHard x6 with _ | _
              · refine Or.inl ⟨?_, ?_⟩
                · simp only [tryRootAt, sv, d2v, hx3, List.cons_append, d3v, t3v, htw, hdw,
                    heolv, hhard]
                  all_goals rfl
                · simp only [tryRootAt, sw, d2w, hx3, List.cons_append, d3w, t3w, htw, hdw,
                    heolw, hhard]
                  all_goals rfl
              · refine Or.inr (Or.inl
                  ⟨(x ++ '"' :: (v ++ '"' :: y)).takeWhile isSpace ++ "color:".toList ++
                    (x2 ++ '"' :: (v ++ '"' :: y)).takeWhile isSpace ++ ['"'],
                   uh :: ut, '"' :: x6, ?_, ?_⟩)
                · simp only [tryRootAt, sv, d2v, hx3, List.cons_append, d3v, t3v, htw, hdw,
                    heolv, hhard, if_true, t1v, t2v]
                · simp only [tryRootAt, sw, d2w, hx3, List.cons_append, d3w, t3w, htw, hdw,
                    heolw, hhard, if_true, t1v, t1w, t2v, t2w]
            · refine Or.inl ⟨?_, ?_⟩
              · simp only [tryRootAt, sv, d2v, hx3, List.cons_append, d3v, t3v, htw, hdw]
                split
                · next vh vt s6 h1 h2 =>
                  exact absurd ((List.cons.injEq _ _ _ _).mp h2).1 heq
                · rfl
              · simp only [tryRootAt, sw, d2w, hx3, List.cons_append, d3w, t3w, htw, hdw]
                split
                · next vh vt s6 h1 h2 =>
                  exact absurd ((List.cons.injEq _ _ _ _).mp h2).1 heq
                · rfl
      · refine Or.inl ⟨?_, ?_⟩
        · simp only [tryRootAt, sv, d2v, hx3, List.cons_append]
          split
          · next s4 h' =>
            exact absurd ((List.cons.injEq _ _ _ _).mp h').1 hcq
          · rfl
        · simp only [tryRootAt, sw, d2w, hx3, List.cons_append]
          split
          · next s4 h' =>
            exact absurd ((List.cons.injEq _ _ _ _).mp h').1 hcq
          · rfl

theorem tryA12_swap (v w y : List Char) (hv : v ≠ []) (hva : v.all isValC = true)
    (hw : w ≠ []) (hwa : w.all isValC = true) (x : List Char) :
    TrySwap v w x y (tryA12At (x ++ '"' :: (v ++ '"' :: y)))
                    (tryA12At (x ++ '"' :: (w ++ '"' :: y))) := by
  have hqs : isSpace '"' = false := by decide
  have hqv : isValC '"' = false := by decide
  have hqa : '"' ∉ "android_12:".toList := by decide
  have hqc : '"' ∉ "color:".toList := by decide
  have d1v := dw_frame hqs x (v ++ '"' :: y)
  have d1w := dw_frame hqs x (w ++ '"' :: y)
  have t1v := tw_frame hqs x (v ++ '"' :: y)
  have t1w := tw_frame hqs x (w ++ '"' :: y)
  rcases hA : stripL "android_12:".toList (x.dropWhile isSpace) with _ | x2
  · refine Or.inl ⟨?_, ?_⟩
    · simp only [tryA12At, d1v, stripL_frame hqa, hA, Option.map_none']
    · simp only [tryA12At, d1w, stripL_frame hqa, hA, Option.map_none']
  · have sv : stripL "android_12:".toList ((x ++ '"' :: (v ++ '"' :: y)).dropWhile isSpace)
        = some (x2 ++ '"' :: (v ++ '"' :: y)) := by
      rw [d1v, stripL_frame hqa, hA]; rfl
    have sw : stripL "android_12:".toList ((x ++ '"' :: (w ++ '"' :: y)).dropWhile isSpace)
        = some (x2 ++ '"' :: (w ++ '"' :: y)) := by
      rw [d1w, stripL_frame hqa, hA]; rfl
    have d2v := dw_frame hqs x2 (v ++ '"' :: y)
    have d2w := dw_frame hqs x2 (w ++ '"' :: y)
    have t2v := tw_frame hqs x2 (v ++ '"' :: y)
    have t2w := tw_frame hqs x2 (w ++ '"' :: y)
    rcases hnl : (x2.takeWhile isSpace).contains '\n' with _ | _
    · refine Or.inl ⟨?_, ?_⟩
      · simp only [tryA12At, sv, t2v, hnl, Bool.false_eq_true, if_false]
      · simp only [tryA12At, sw, t2w, hnl, Bool.false_eq_true, if_false]
    · rcases hC : stripL "color:".toList (x2.dropWhile isSpace) with _ | x3
      · refine Or.inl ⟨?_, ?_⟩
        · simp only [tryA12At, sv, t2v, hnl, if_true, d2v, stripL_frame hqc, hC,
            Option.map_none']
        · simp only [tryA12At, sw, t2w, hnl, if_true, d2w, stripL_frame hqc, hC,
            Option.map_none']
      · have cv : stripL "color:".toList ((x2 ++ '"' :: (v ++ '"' :: y)).dropWhile isSpace)
            = some (x3 ++ '"' :: (v ++ '"' :: y)) := by
          rw [d2v, stripL_frame hqc, hC]; rfl
        have cw : stripL "color:".toList ((x2 ++ '"' :: (w ++ '"' :: y)).dropWhile isSpace)
            = some (x3 ++ '"' :: (w ++ '"' :: y)) := by
          rw [d2w, stripL_frame hqc, hC]; rfl
        have d3v := dw_frame hqs x3 (v ++ '"' :: y)
        have d3w := dw_frame hqs x3 (w ++ '"' :: y)
        have t3v := tw_frame hqs x3 (v ++ '"' :: y)
        have t3w := tw_frame hqs x3 (w ++ '"' :: y)
        rcases hx5 : x3.dropWhile isSpace with _ | ⟨c, x4⟩
        · have hvtw : (v ++ '"' :: y).takeWhile isValC = v := by
            rw [tw_frame hqv]; exact tw_all hva
          have hvdw : (v ++ '"' :: y).dropWhile isValC = '"' :: y := by
            rw [dw_frame hqv, dw_all hva]; rfl
          have hwtw : (w ++ '"' :: y).takeWhile isValC = w := by
            rw [tw_frame hqv]; exact tw_all hwa
          have hwdw : (w ++ '"' :: y).dropWhile isValC = '"' :: y := by
            rw [dw_frame hqv, dw_all hwa]; rfl
          have hx : x = x.takeWhile isSpace ++ ("android_12:".toList ++
              (x2.takeWhile isSpace ++ ("color:".toList ++ x3.takeWhile isSpace))) := by
            conv_lhs => rw [← List.takeWhile_append_dropWhile isSpace x]
            rw [stripL_sound hA]
            congr 1
            conv_lhs => rw [← List.takeWhile_append_dropWhile isSpace x2]
            rw [stripL_sound hC]
            congr 2
            conv_lhs => rw [← List.takeWhile_append_dropWhile isSpace x3, hx5]
            simp
          rcases v with _ | ⟨vh0, vt0⟩
          · exact absurd rfl hv
          rcases w with _ | ⟨wh0, wt0⟩
          · exact absurd rfl hw
          rcases heol : eolWS y with _ | _
          · refine Or.inl ⟨?_, ?_⟩
            · simp only [tryA12At, sv, t2v, hnl, if_true, cv, d3v, t3v, hx5,
                List.nil_append, hvtw, hvdw, heol]
              all_goals rfl
            · simp only [tryA12At, sw, t2w, hnl, if_true, cw, d3w, t3w, hx5,
                List.nil_append, hwtw, hwdw, heol]
              all_goals rfl
          · refine Or.inr (Or.inr ⟨?_, ?_⟩)
            · simp only [tryA12At, sv, t2v, t1v, hnl, if_true, cv, d3v, t3v, hx5,
                List.nil_append, hvtw, hvdw, heol, Option.some_inj, Prod.mk.injEq]
              refine ⟨?_, trivial⟩
              conv_rhs => rw [hx]
              simp
            · simp only [tryA12At, sw, t2w, t1w, hnl, if_true, cw, d3w, t3w, hx5,
                List.nil_append, hwtw, hwdw, heol, Option.some_inj, Prod.mk.injEq]
              refine ⟨?_, trivial⟩
              conv_rhs => rw [hx]
              simp
        · by_cases hcq : c = '"'
          · subst hcq
            have d4v := dw_frame hqv x4 (v ++ '"' :: y)
            have d4w := dw_frame hqv x4 (w ++ '"' :: y)
            have t4v := tw_frame hqv x4 (v ++ '"' :: y)
            have t4w := tw_frame hqv x4 (w ++ '"' :: y)
            rcases htw : x4.takeWhile isValC with _ | ⟨uh, ut⟩
            · refine Or.inl ⟨?_, ?_⟩
              · simp only [tryA12At, sv, t2v, hnl, if_true, cv, d3v, hx5,
                  List.cons_append, d4v, t4v, htw]
              · simp only [tryA12At, sw, t2w, hnl, if_true, cw, d3w, hx5,
                  List.cons_append, d4w, t4w, htw]
            · rcases hdw : x4.dropWhile isValC with _ | ⟨e, x6⟩
              · refine Or.inl ⟨?_, ?_⟩
                · simp only [tryA12At, sv, t2v, hnl, if_true, cv, d3v, hx5,
                    List.cons_append, d4v, t4v, htw, hdw, List.nil_append,
                    eolWS_val hv hva]
                  all_goals rfl
                · simp only [tryA12At, sw, t2w, hnl, if_true, cw, d3w, hx5,
                    List.cons_append, d4w, t4w, htw, hdw, List.nil_append,
                    eolWS_val hw hwa]
                  all_goals rfl
              · by_cases heq : e = '"'
                · subst heq
                  have heolv : eolWS (x6 ++ '"' :: (v ++ '"' :: y)) = eolHard x6 :=
                    eolWS_frame hqs x6 _
                  have heolw : eolWS (x6 ++ '"' :: (w ++ '"' :: y)) = eolHard x6 :=
                    eolWS_frame hqs x6 _
                  rcases hhard : eolHard x6 with _ | _
                  · refine Or.inl ⟨?_, ?_⟩
                    · simp only [tryA12At, sv, t2v, hnl, if_true, cv, d3v, hx5,
                        List.cons_append, d4v, t4v, htw, hdw, heolv, hhard]
                      all_goals rfl
                    · simp only [tryA12At, sw, t2w, hnl, if_true, cw, d3w, hx5,
                        List.cons_append, d4w, t4w, htw, hdw, heolw, hhard]
                      all_goals rfl
                  · refine Or.inr (Or.inl
                      ⟨(x ++ '"' :: (v ++ '"' :: y)).takeWhile isSpace ++
                        "android_12:".toList ++
                        (x2 ++ '"' :: (v ++ '"' :: y)).takeWhile isSpace ++
                        "color:".toList ++
                        (x3 ++ '"' :: (v ++ '"' :: y)).takeWhile isSpace ++ ['"'],
                       uh :: ut, '"' :: x6, ?_, ?_⟩)
                    · simp only [tryA12At, sv, t2v, t1v, t3v, hnl, if_true, cv, d3v, hx5,
                        List.cons_append, d4v, t4v, htw, hdw, heolv, hhard]
                    · simp only [tryA12At, sw, t2w, t1w, t3w, t1v, t2v, t3v, hnl, if_true,
                        cw, d3w, hx5, List.cons_append, d4w, t4w, htw, hdw, heolw, hhard]
                · refine Or.inl ⟨?_, ?_⟩
                  · simp only [tryA12At, sv, t2v, hnl, if_true, cv, d3v, hx5,
                      List.cons_append, d4v, t4v, htw, hdw]
                    split
                    · next vh vt s6 h1 h2 =>
                      exact absurd ((List.cons.injEq _ _ _ _).mp h2).1 heq
                    · rfl
                  · simp only [tryA12At, sw, t2w, hnl, if_true, cw, d3w, hx5,
                      List.cons_append, d4w, t4w, htw, hdw]
                    split
                    · next vh vt s6 h1 h2 =>
                      exact absurd ((List.cons.injEq _ _ _ _).mp h2).1 heq
                    · rfl
          · refine Or.inl ⟨?_, ?_⟩
            · simp only [tryA12At, sv, t2v, hnl, if_true, cv, d3v, hx5, List.cons_append]
              split
              · next s4 h' =>
                exact absurd ((List.cons.injEq _ _ _ _).mp h').1 hcq
              · rfl
            · simp only [tryA12At, sw, t2w, hnl, if_true, cw, d3w, hx5, List.cons_append]
              split
              · next s4 h' =>
                exact absurd ((List.cons.injEq _ _ _ _).mp h').1 hcq
              · rfl

/-- Scan-level counterpart of `TrySwap`: additionally the found match may lie
beyond the swapped value (case four). -/
def ScanSwap (v w x y : List Char)
    (rv rw : Option (List Char × List Char × List Char)) : Prop :=
  (rv = none ∧ rw = none)
  ∨ (∃ a u β, rv = some (a, u, β ++ '"' :: (v ++ '"' :: y)) ∧
              rw = some (a, u, β ++ '"' :: (w ++ '"' :: y)))
  ∨ (rv = some (x ++ ['"'], v, '"' :: y) ∧ rw = some (x ++ ['"'], w, '"' :: y))
  ∨ (∃ y₁ u b, rv = some (x ++ '"' :: (v ++ '"' :: y₁), u, b) ∧
               rw = some (x ++ '"' :: (w ++ '"' :: y₁), u, b))

theorem scanWith_swap
    (tr : List Char → Option (List Char × List Char × List Char))
    (v w y : List Char) (hva : v.all isValC = true) (hwa : w.all isValC = true)
    (htr : ∀ x', TrySwap v w x' y (tr (x' ++ '"' :: (v ++ '"' :: y)))
                                  (tr (x' ++ '"' :: (w ++ '"' :: y)))) :
    ∀ x lb, ScanSwap v w x y (scanWith tr lb (x ++ '"' :: (v ++ '"' :: y)))
                             (scanWith tr lb (x ++ '"' :: (w ++ '"' :: y))) := by
  have hvn : ∀ c ∈ v, c ≠ '\n' := by
    intro c hc
    rw [List.all_eq_true] at hva
    exact valC_ne_nl (hva c hc)
  have hwn : ∀ c ∈ w, c ≠ '\n' := by
    intro c hc
    rw [List.all_eq_true] at hwa
    exact valC_ne_nl (hwa c hc)
  have hq : (decide ('"' = '\n')) = false := by decide
  intro x
  induction x with
  | nil =>
    intro lb
    have hrest : ScanSwap v w [] y
        (match scanWith tr (decide ('"' = '\n')) (v ++ '"' :: y) with
         | some (a, u, b) => some ('"' :: a, u, b)
         | none => none)
        (match scanWith tr (decide ('"' = '\n')) (w ++ '"' :: y) with
         | some (a, u, b) => some ('"' :: a, u, b)
         | none => none) := by
      rw [hq, scanWith_skip tr v ('"' :: y) hvn, scanWith_skip tr w ('"' :: y) hwn]
      have e1 : scanWith tr false ('"' :: y) =
          match scanWith tr false y with
          | some (a, u, b) => some ('"' :: a, u, b)
          | none => none := by
        simp only [scanWith, Bool.false_eq_true, if_false, hq]
      rw [e1]
      rcases r0 : scanWith tr false y with _ | ⟨ay, uy, by0⟩
      · exact Or.inl ⟨rfl, rfl⟩
      · refine Or.inr (Or.inr (Or.inr ⟨ay, uy, by0, ?_, ?_⟩)) <;> simp
    cases lb with
    | false =>
      simp only [List.nil_append, List.append_eq, scanWith, Bool.false_eq_true, if_false]
      exact hrest
    | true =>
      rcases htr [] with ⟨hnv, hnw⟩ | ⟨a, u, β, hv', hw'⟩ | ⟨hv', hw'⟩
      · simp only [List.nil_append, List.append_eq] at hnv hnw
        simp only [List.nil_append, List.append_eq, scanWith, if_true, hnv, hnw]
        exact hrest
      · simp only [List.nil_append, List.append_eq] at hv' hw'
        simp only [List.nil_append, List.append_eq, scanWith, if_true, hv', hw']
        exact Or.inr (Or.inl ⟨a, u, β, rfl, rfl⟩)
      · simp only [List.nil_append, List.append_eq] at hv' hw'
        simp only [List.nil_append, List.append_eq, scanWith, if_true, hv', hw']
        exact Or.inr (Or.inr (Or.inl ⟨by simp, by simp⟩))
  | cons c x' ih =>
    intro lb
    have hrest : ScanSwap v w (c :: x') y
        (match scanWith tr (decide (c = '\n')) (x' ++ '"' :: (v ++ '"' :: y)) with
         | some (a, u, b) => some (c :: a, u, b)
         | none => none)
        (match scanWith tr (decide (c = '\n')) (x' ++ '"' :: (w ++ '"' :: y)) with
         | some (a, u, b) => some (c :: a, u, b)
         | none => none) := by
      rcases ih (decide (c = '\n')) with ⟨h1, h2⟩ | ⟨a, u, β, h1, h2⟩ | ⟨h1, h2⟩ |
        ⟨y₁, u, b, h1, h2⟩
      · rw [h1, h2]
        exact Or.inl ⟨rfl, rfl⟩
      · rw [h1, h2]
        exact Or.inr (Or.inl ⟨c :: a, u, β, rfl, rfl⟩)
      · rw [h1, h2]
        exact Or.inr (Or.inr (Or.inl ⟨by simp, by simp⟩))
      · rw [h1, h2]
        refine Or.inr (Or.inr (Or.inr ⟨y₁, u, b, ?_, ?_⟩)) <;> simp
    cases lb with
    | false =>
      simp only [List.cons_append, List.append_eq, scanWith, Bool.false_eq_true, if_false]
      exact hrest
    | true =>
      rcases htr (c :: x') with ⟨hnv, hnw⟩ | ⟨a, u, β, hv', hw'⟩ | ⟨hv', hw'⟩
      · simp only [List.cons_append, List.append_eq] at hnv hnw
        simp only [List.cons_append, List.append_eq, scanWith, if_true, hnv, hnw]
        exact hrest
      · simp only [List.cons_append, List.append_eq] at hv' hw'
        simp only [List.cons_append, List.append_eq, scanWith, if_true, hv', hw']
        exact Or.inr (Or.inl ⟨a, u, β, rfl, rfl⟩)
      · simp only [List.cons_append, List.append_eq] at hv' hw'
        simp only [List.cons_append, List.append_eq, scanWith, if_true, hv', hw']
        exact Or.inr (Or.inr (Or.inl ⟨by simp, by simp⟩))

/-! ### Locating two quoted value spans in the same text -/

theorem value_head_split {hex b k' rest : List Char} (hha : hex.all isValC = true)
    (hb : ∃ b₀, b = '"' :: b₀) (he : hex ++ b = k' ++ '"' :: rest) :
    hex = k'.takeWhile isValC ∧ b = k'.dropWhile isValC ++ '"' :: rest := by
  obtain ⟨b₀, rfl⟩ := hb
  have hqv : isValC '"' = false := by decide
  constructor
  · have h1 : (hex ++ '"' :: b₀).takeWhile isValC = hex := by
      rw [tw_frame hqv]; exact tw_all hha
    have h2 : (k' ++ '"' :: rest).takeWhile isValC = k'.takeWhile isValC :=
      tw_frame hqv k' rest
    rw [← h1, he, h2]
  · have h1 : (hex ++ '"' :: b₀).dropWhile isValC = '"' :: b₀ := by
      rw [dw_frame hqv, dw_all hha]; rfl
    have h2 : (k' ++ '"' :: rest).dropWhile isValC = k'.dropWhile isValC ++ '"' :: rest :=
      dw_frame hqv k' rest
    rw [← h1, he, h2]

theorem singleton_suffix_inj {p q : List Char} {e f : Char}
    (h : p ++ [e] = q ++ [f]) : p = q ∧ e = f := by
  have hl : p.length = q.length := by
    have := congrArg List.length h
    simp only [List.length_append, List.length_cons, List.length_nil] at this
    omega
  obtain ⟨h1, h2⟩ := List.append_inj h hl
  exact ⟨h1, by simpa using h2⟩

theorem two_values {a hex b c u d : List Char}
    (he : a ++ hex ++ b = c ++ u ++ d)
    (hha : hex.all isValC = true) (hua : u.all isValC = true)
    (hc : ∃ c₀, c = c₀ ++ ['"']) (hd : ∃ d₀, d = '"' :: d₀)
    (ha : ∃ a₀, a = a₀ ++ ['"']) (hb : ∃ b₀, b = '"' :: b₀) :
    (a = c ∧ hex = u ∧ b = d)
    ∨ (∃ β d₀, d = '"' :: d₀ ∧ b = β ++ '"' :: (u ++ '"' :: d₀) ∧
        c = a ++ hex ++ β ++ ['"'])
    ∨ (∃ γ c₀, c = c₀ ++ ['"'] ∧ a = c₀ ++ '"' :: (u ++ '"' :: γ) ∧
        d = '"' :: (γ ++ hex ++ b)) := by
  have he' : a ++ (hex ++ b) = c ++ (u ++ d) := by simpa [List.append_assoc] using he
  rcases List.append_eq_append_iff.mp he' with ⟨k, hk1, hk2⟩ | ⟨k, hk1, hk2⟩
  · -- c = a ++ k ; hex ++ b = k ++ (u ++ d)
    rcases List.eq_nil_or_concat k with rfl | ⟨k', e, rfl⟩
    · obtain ⟨d₀, rfl⟩ := hd
      obtain ⟨hx1, hx2⟩ := value_head_split hha hb
        (show hex ++ b = u ++ '"' :: d₀ by simpa using hk2)
      rw [tw_all hua] at hx1
      rw [dw_all hua] at hx2
      exact Or.inl ⟨by simpa using hk1.symm, hx1, by simpa using hx2⟩
    · rw [List.concat_eq_append] at hk1 hk2
      obtain ⟨c₀, hc₀⟩ := hc
      obtain ⟨-, rfl⟩ := singleton_suffix_inj
        (show (a ++ k') ++ [e] = c₀ ++ ['"'] by rw [← hc₀, hk1]; simp)
      obtain ⟨d₀, rfl⟩ := hd
      obtain ⟨hx1, hx2⟩ := value_head_split hha hb
        (show hex ++ b = k' ++ '"' :: (u ++ '"' :: d₀) by rw [hk2]; simp)
      rcases hdwk : k'.dropWhile isValC with _ | ⟨e2, k₂⟩
      · have hk' : k' = hex := by
          conv_lhs => rw [← List.takeWhile_append_dropWhile isValC k']
          rw [hdwk, ← hx1]
          simp
        refine Or.inr (Or.inl ⟨[], d₀, rfl, ?_, ?_⟩)
        · rw [hx2, hdwk]
        · rw [hk1, hk']; simp
      · have he2q : e2 = '"' := by
          obtain ⟨b₀, hb₀⟩ := hb
          rw [hx2, hdwk] at hb₀
          exact (((List.cons.injEq _ _ _ _).mp hb₀.symm).1).symm
        subst he2q
        have hk' : k' = hex ++ '"' :: k₂ := by
          conv_lhs => rw [← List.takeWhile_append_dropWhile isValC k']
          rw [hdwk, ← hx1]
        refine Or.inr (Or.inl ⟨'"' :: k₂, d₀, rfl, ?_, ?_⟩)
        · rw [hx2, hdwk]
        · rw [hk1, hk']; simp
  · -- a = c ++ k ; u ++ d = k ++ (hex ++ b)
    rcases List.eq_nil_or_concat k with rfl | ⟨k', e, rfl⟩
    · obtain ⟨d₀, hd₀⟩ := hd
      obtain ⟨hx1, hx2⟩ := value_head_split hha hb
        (show hex ++ b = u ++ '"' :: d₀ by rw [← hd₀]; simpa using hk2.symm)
      rw [tw_all hua] at hx1
      rw [dw_all hua] at hx2
      exact Or.inl ⟨by simpa using hk1, hx1, by rw [hd₀]; simpa using hx2⟩
    · rw [List.concat_eq_append] at hk1 hk2
      obtain ⟨a₀, ha₀⟩ := ha
      obtain ⟨-, rfl⟩ := singleton_suffix_inj
        (show (c ++ k') ++ [e] = a₀ ++ ['"'] by rw [← ha₀, hk1]; simp)
      obtain ⟨hx1, hx2⟩ := value_head_split hua hd
        (show u ++ d = k' ++ '"' :: (hex ++ b) by rw [hk2]; simp)
      obtain ⟨c₀, hc₀⟩ := hc
      rcases hdwk : k'.dropWhile isValC with _ | ⟨e2, k₂⟩
      · have hk' : k' = u := by
          conv_lhs => rw [← List.takeWhile_append_dropWhile isValC k']
          rw [hdwk, ← hx1]
          simp
        refine Or.inr (Or.inr ⟨[], c₀, hc₀, ?_, ?_⟩)
        · rw [hk1, hk', hc₀]; simp
        · rw [hx2, hdwk]; simp
      · have he2q : e2 = '"' := by
          obtain ⟨d₀, hd₀⟩ := hd
          rw [hx2, hdwk] at hd₀
          exact (((List.cons.injEq _ _ _ _).mp hd₀.symm).1).symm
        subst he2q
        have hk' : k' = u ++ '"' :: k₂ := by
          conv_lhs => rw [← List.takeWhile_append_dropWhile isValC k']
          rw [hdwk, ← hx1]
        refine Or.inr (Or.inr ⟨k₂ ++ ['"'], c₀, hc₀, ?_, ?_⟩)
        · rw [hk1, hk', hc₀]; simp
        · rw [hx2, hdwk]; simp

/-! ### After a successful update both fields hold the new color -/

theorem update_resync {hex t t' : List Char} {ch : Bool}
    (hhne : hex ≠ []) (hha : hex.all isValC = true)
    (h : update_pubspec hex t = .ok (t', ch)) :
    ∃ A B C D, scanWith tryRootAt true t' = some (A, hex, B) ∧ t' = A ++ hex ++ B ∧
      scanWith tryA12At true t' = some (C, hex, D) ∧ t' = C ++ hex ++ D := by
  rcases hroot : scanWith tryRootAt true t with _ | ⟨a, v, b⟩
  · exfalso
    simp only [update_pubspec, subnRoot, subnA12, hroot] at h
    split at h <;> simp_all
  rcases ha12 : scanWith tryA12At true (a ++ hex ++ b) with _ | ⟨c, u, d⟩
  · exfalso
    simp only [update_pubspec, subnRoot, subnA12, hroot, ha12] at h
    split at h <;> simp_all
  have ht' : t' = c ++ hex ++ d := by
    simp only [update_pubspec, subnRoot, subnA12, hroot, ha12] at h
    rw [if_neg (by simp)] at h
    split at h <;>
      (simp only [Except.ok.injEq, Prod.mk.injEq] at h; exact h.1.symm)
  obtain ⟨ht, hvne, hva, ⟨a₀, ha₀⟩, ⟨b₀, hb₀⟩⟩ := scanRoot_sound hroot
  obtain ⟨hm, hune, hua, ⟨c₀, hc₀⟩, ⟨d₀0, hd₀0⟩⟩ := scanA12_sound ha12
  have hvl : 1 ≤ v.length := List.length_pos.mpr hvne
  have hul : 1 ≤ u.length := List.length_pos.mpr hune
  have hhl : 1 ≤ hex.length := List.length_pos.mpr hhne
  -- step 1: the root pattern re-finds the root substitution inside `m`
  have hrootm : scanWith tryRootAt true (a ++ hex ++ b) = some (a, hex, b) := by
    have S := scanWith_swap tryRootAt v hex b₀ hva hha
      (tryRoot_swap v hex b₀ hvne hva hhne hha) a₀ true
    have e1 : a₀ ++ '"' :: (v ++ '"' :: b₀) = t := by
      rw [ht, ha₀, hb₀]; simp
    have e2 : a₀ ++ '"' :: (hex ++ '"' :: b₀) = a ++ hex ++ b := by
      rw [ha₀, hb₀]; simp
    rw [e1, e2] at S
    rcases S with ⟨h1, -⟩ | ⟨α, μ, β, h1, -⟩ | ⟨h1, h2⟩ | ⟨y₁, μ, b₂, h1, -⟩
    · rw [hroot] at h1; exact absurd h1 (by simp)
    · rw [hroot] at h1
      simp only [Option.some_inj, Prod.mk.injEq] at h1
      have := congrArg List.length h1.2.2
      rw [hb₀] at this
      simp only [List.length_append, List.length_cons, List.length_nil] at this
      omega
    · rw [h2, ha₀, hb₀]
    · rw [hroot] at h1
      simp only [Option.some_inj, Prod.mk.injEq] at h1
      have := congrArg List.length h1.1
      rw [ha₀] at this
      simp only [List.length_append, List.length_cons, List.length_nil] at this
      omega
  -- step 2: locate the android_12 span relative to the root span
  rcases two_values hm hha hua ⟨c₀, hc₀⟩ ⟨d₀0, hd₀0⟩ ⟨a₀, ha₀⟩ ⟨b₀, hb₀⟩ with
    ⟨hac, hxu, hbd⟩ | ⟨β, d₀, hd₀, hb', hc'⟩ | ⟨γ, c₀', hc₀', ha', hd'⟩
  · -- the two spans coincide: the second substitution rewrote the same value
    subst hxu
    have hm' : t' = a ++ hex ++ b := by rw [ht', ← hac, ← hbd]
    refine ⟨a, b, c, d, ?_, hm', ?_, ht'⟩
    · rw [hm']; exact hrootm
    · rw [hm']; exact ha12
  · -- the android_12 span lies strictly after the root span
    have hmeq : a ++ hex ++ b = (a ++ hex ++ β) ++ '"' :: (u ++ '"' :: d₀) := by
      rw [hb']; simp
    have ht'eq : t' = (a ++ hex ++ β) ++ '"' :: (hex ++ '"' :: d₀) := by
      rw [ht', hc', hd₀]; simp
    -- root pattern on t'
    have hA : scanWith tryRootAt true t' = some (a, hex, β ++ '"' :: (hex ++ '"' :: d₀)) := by
      have S := scanWith_swap tryRootAt u hex d₀ hua hha
        (tryRoot_swap u hex d₀ hune hua hhne hha) (a ++ hex ++ β) true
      rw [← hmeq, ← ht'eq] at S
      rcases S with ⟨h1, -⟩ | ⟨α, μ, β₂, h1, h2⟩ | ⟨h1, -⟩ | ⟨y₁, μ, b₂, h1, -⟩
      · rw [hrootm] at h1; exact absurd h1 (by simp)
      · rw [hrootm] at h1
        simp only [Option.some_inj, Prod.mk.injEq] at h1
        obtain ⟨hα, hμ, hβ⟩ := h1
        have hβ' : β₂ = β := by
          have : β₂ ++ '"' :: (u ++ '"' :: d₀) = β ++ '"' :: (u ++ '"' :: d₀) := by
            rw [← hβ]; exact hb'
          exact List.append_cancel_right this
        rw [h2, hα, hμ, hβ']
      · rw [hrootm] at h1
        simp only [Option.some_inj, Prod.mk.injEq] at h1
        have := congrArg List.length h1.1
        simp only [List.length_append, List.length_cons, List.length_nil] at this
        omega
      · rw [hrootm] at h1
        simp only [Option.some_inj, Prod.mk.injEq] at h1
        have := congrArg List.length h1.1
        simp only [List.length_append, List.length_cons, List.length_nil] at this
        omega
    -- android_12 pattern on t'
    have hmeq2 : a ++ hex ++ b = c₀ ++ '"' :: (u ++ '"' :: d₀) := by
      rw [hm, hc₀, hd₀]; simp
    have ht'eq2 : t' = c₀ ++ '"' :: (hex ++ '"' :: d₀) := by
      rw [ht', hc₀, hd₀]; simp
    have hC : scanWith tryA12At true t' = some (c, hex, d) := by
      have S := scanWith_swap tryA12At u hex d₀ hua hha
        (tryA12_swap u hex d₀ hune hua hhne hha) c₀ true
      rw [← hmeq2, ← ht'eq2] at S
      rcases S with ⟨h1, -⟩ | ⟨α, μ, β₂, h1, -⟩ | ⟨h1, h2⟩ | ⟨y₁, μ, b₂, h1, -⟩
      · rw [ha12] at h1; exact absurd h1 (by simp)
      · rw [ha12] at h1
        simp only [Option.some_inj, Prod.mk.injEq] at h1
        have := congrArg List.length h1.2.2
        rw [hd₀] at this
        simp only [List.length_append, List.length_cons, List.length_nil] at this
        omega
      · rw [h2, hc₀, hd₀]
      · rw [ha12] at h1
        simp only [Option.some_inj, Prod.mk.injEq] at h1
        have := congrArg List.length h1.1
        rw [hc₀] at this
        simp only [List.length_append, List.length_cons, List.length_nil] at this
        omega
    refine ⟨a, β ++ '"' :: (hex ++ '"' :: d₀), c, d, hA, ?_, hC, ht'⟩
    rw [ht'eq]; simp
  · -- the android_12 span lies strictly before the root span
    have hmeq : a ++ hex ++ b = c₀' ++ '"' :: (u ++ '"' :: (γ ++ hex ++ b)) := by
      rw [hm, hc₀', hd']; simp
    have ht'eq : t' = c₀' ++ '"' :: (hex ++ '"' :: (γ ++ hex ++ b)) := by
      rw [ht', hc₀', hd']; simp
    have hA : scanWith tryRootAt true t'
        = some (c₀' ++ '"' :: (hex ++ '"' :: γ), hex, b) := by
      have S := scanWith_swap tryRootAt u hex (γ ++ hex ++ b) hua hha
        (tryRoot_swap u hex (γ ++ hex ++ b) hune hua hhne hha) c₀' true
      rw [← hmeq, ← ht'eq] at S
      rcases S with ⟨h1, -⟩ | ⟨α, μ, β₂, h1, -⟩ | ⟨h1, -⟩ | ⟨y₁, μ, b₂, h1, h2⟩
      · rw [hrootm] at h1; exact absurd h1 (by simp)
      · rw [hrootm] at h1
        simp only [Option.some_inj, Prod.mk.injEq] at h1
        have := congrArg List.length h1.2.2
        simp only [List.length_append, List.length_cons, List.length_nil] at this
        omega
      · rw [hrootm] at h1
        simp only [Option.some_inj, Prod.mk.injEq] at h1
        have := congrArg List.length h1.1
        rw [ha'] at this
        simp only [List.length_append, List.length_cons, List.length_nil] at this
        omega
      · rw [hrootm] at h1
        simp only [Option.some_inj, Prod.mk.injEq] at h1
        obtain ⟨hα, hμ, hβ⟩ := h1
        have hy₁ : y₁ = γ := by
          have h3 : c₀' ++ '"' :: (u ++ '"' :: y₁) = c₀' ++ '"' :: (u ++ '"' :: γ) := by
            rw [← hα]; exact ha'
          have h4 := List.append_cancel_left h3
          have h5 := List.cons_injective h4  -- peel the quote
          have h6 := List.append_cancel_left h5
          exact List.cons_injective h6
        rw [h2, hy₁, ← hμ, ← hβ]
    have hC : scanWith tryA12At true t' = some (c, hex, d) := by
      have S := scanWith_swap tryA12At u hex (γ ++ hex ++ b) hua hha
        (tryA12_swap u hex (γ ++ hex ++ b) hune hua hhne hha) c₀' true
      rw [← hmeq, ← ht'eq] at S
      rcases S with ⟨h1, -⟩ | ⟨α, μ, β₂, h1, -⟩ | ⟨h1, h2⟩ | ⟨y₁, μ, b₂, h1, -⟩
      · rw [ha12] at h1; exact absurd h1 (by simp)
      · rw [ha12] at h1
        simp only [Option.some_inj, Prod.mk.injEq] at h1
        have := congrArg List.length h1.2.2
        rw [hd'] at this
        simp only [List.length_append, List.length_cons, List.length_nil] at this
        omega
      · rw [h2, hc₀', hd']
      · rw [ha12] at h1
        simp only [Option.some_inj, Prod.mk.injEq] at h1
        have := congrArg List.length h1.1
        rw [hc₀'] at this
        simp only [List.length_append, List.length_cons, List.length_nil] at this
        omega
    refine ⟨c₀' ++ '"' :: (hex ++ '"' :: γ), b, c, d, hA, ?_, hC, ht'⟩
    rw [ht'eq]; simp

/-! ### Inversion of a successful update -/

theorem update_ok_inv {hex t t' : List Char} {ch : Bool}
    (h : update_pubspec hex t = .ok (t', ch)) :
    ∃ a v b c u d, scanWith tryRootAt true t = some (a, v, b) ∧
      scanWith tryA12At true (a ++ hex ++ b) = some (c, u, d) ∧
      t' = c ++ hex ++ d ∧ (t' = t → ch = false) := by
  rcases hroot : scanWith tryRootAt true t with _ | ⟨a, v, b⟩
  · exfalso
    simp only [update_pubspec, subnRoot, subnA12, hroot] at h
    split at h <;> simp_all
  rcases ha12 : scanWith tryA12At true (a ++ hex ++ b) with _ | ⟨c, u, d⟩
  · exfalso
    simp only [update_pubspec, subnRoot, subnA12, hroot, ha12] at h
    split at h <;> simp_all
  refine ⟨a, v, b, c, u, d, rfl, ha12, ?_, ?_⟩
  · simp only [update_pubspec, subnRoot, subnA12, hroot, ha12] at h
    rw [if_neg (by simp)] at h
    split at h <;>
      (simp only [Except.ok.injEq, Prod.mk.injEq] at h; exact h.1.symm)
  · intro ht'
    simp only [update_pubspec, subnRoot, subnA12, hroot, ha12] at h
    rw [if_neg (by simp)] at h
    split at h
    · simp only [Except.ok.injEq, Prod.mk.injEq] at h
      exact h.2.symm
    · next hne =>
      simp only [Except.ok.injEq, Prod.mk.injEq] at h
      exact absurd (h.1.trans ht') hne

/-! ### The claims -/

/-- Claim C1 (counterexample): a declaration text that contains the literal
occurrence `themePrimaryColorValue = 0xFF222222` but whose extraction result
is `#111111`, because an earlier, differently spaced occurrence is the
leftmost regex match.  This refutes the claim that extraction returns the
uppercased digits of any contained occurrence. -/
theorem C1_counterexample :
    ("themePrimaryColorValue=0xFF111111 themePrimaryColorValue = 0xFF222222".toList : List Char) =
      "themePrimaryColorValue=0xFF111111 ".toList ++
        ("themePrimaryColorValue = 0xFF".toList ++ ("222222".toList ++ [])) ∧
    extract_theme_hex
      "themePrimaryColorValue=0xFF111111 themePrimaryColorValue = 0xFF222222".toList =
      .ok "#111111".toList ∧
    ("#111111".toList : List Char) ≠ "#222222".toList := by
  refine ⟨by decide, by decide, by decide⟩

/-- Claim C1 (amended): for every declaration text containing
`themePrimaryColorValue = 0xFF` followed by six hex digits `D`, extraction
succeeds; and it returns exactly `#` + uppercase(`D`) provided the occurrence
is the leftmost match of the declaration pattern (no earlier position
matches). -/
theorem C1_amended (p d s : List Char) (h6 : d.length = 6)
    (hd : d.all isHexD = true) :
    (∃ r, extract_theme_hex
      (p ++ ("themePrimaryColorValue = 0xFF".toList ++ (d ++ s))) = .ok r) ∧
    ((∀ i, i < p.length →
        tryDeclAt ((p ++ ("themePrimaryColorValue = 0xFF".toList ++ (d ++ s))).drop i) = none) →
      extract_theme_hex (p ++ ("themePrimaryColorValue = 0xFF".toList ++ (d ++ s))) =
        .ok ('#' :: d.map upChar)) := by
  have htry : tryDeclAt ("themePrimaryColorValue = 0xFF".toList ++ (d ++ s)) = some d :=
    tryDeclAt_at d s h6 hd
  constructor
  · obtain ⟨d', hd'⟩ := searchDecl_exists htry p
    exact ⟨'#' :: d'.map upChar, by rw [extract_theme_hex, hd']⟩
  · intro hfirst
    rw [extract_theme_hex, searchDecl_first htry p hfirst]

/-- Claim C1 (witness): the amended theorem applied to a concrete prefix,
digit string and suffix. -/
theorem C1_witness :
    extract_theme_hex
      ("x\n".toList ++ ("themePrimaryColorValue = 0xFF".toList ++
        ("1a2b3c".toList ++ ";\n".toList))) = .ok ('#' :: "1a2b3c".toList.map upChar) :=
  (C1_amended "x\n".toList "1a2b3c".toList ";\n".toList (by decide) (by decide)).2
    (by decide)

/-- Claim C2 (counterexample): a manifest in which the `android_12:` nested
color line precedes the root-level color line.  `update_pubspec` succeeds,
but the root-level line `color: "#111111"` is left unchanged: the "root"
pattern `^\s*color:\s*"..."` matches any color line, so the first match is
the nested one and the root-level field does not receive the new color. -/
theorem C2_counterexample :
    update_pubspec "#2196F3".toList
      "flutter_native_splash:\n  android_12:\n    color: \"#000000\"\n  color: \"#111111\"\n".toList =
      .ok ("flutter_native_splash:\n  android_12:\n    color: \"#2196F3\"\n  color: \"#111111\"\n".toList,
        true) ∧
    ("flutter_native_splash:\n  android_12:\n    color: \"#2196F3\"\n  color: \"#111111\"\n".toList : List Char) =
      "flutter_native_splash:\n  android_12:\n    color: \"#2196F3\"\n  ".toList ++
        ("color: \"#111111\"\n".toList : List Char) ∧
    ("#111111".toList : List Char) ≠ "#2196F3".toList := by
  refine ⟨by decide, by decide, by decide⟩

/-- Claim C2 (amended): after `update_pubspec` succeeds with a well-formed
color value, the field found by the root pattern and the field found by the
android_12 pattern in the resulting text both hold exactly `hexColor`.  The
root pattern is not restricted to unnested lines: when a nested color line
comes first in the document it is the one rewritten (counterexample). -/
theorem C2_amended (hex t t' : List Char) (ch : Bool) (hne : hex ≠ [])
    (hva : hex.all isValC = true) (h : update_pubspec hex t = .ok (t', ch)) :
    ∃ A B C D, scanWith tryRootAt true t' = some (A, hex, B) ∧ t' = A ++ hex ++ B ∧
      scanWith tryA12At true t' = some (C, hex, D) ∧ t' = C ++ hex ++ D :=
  update_resync hne hva h

/-- Claim C2 (witness): the amended theorem applied to the standard manifest
layout. -/
theorem C2_witness :
    ∃ A B C D,
      scanWith tryRootAt true
        "flutter_native_splash:\n  color: \"#2196F3\"\n  android_12:\n    color: \"#2196F3\"\n".toList =
        some (A, "#2196F3".toList, B) ∧
      ("flutter_native_splash:\n  color: \"#2196F3\"\n  android_12:\n    color: \"#2196F3\"\n".toList : List Char) =
        A ++ "#2196F3".toList ++ B ∧
      scanWith tryA12At true
        "flutter_native_splash:\n  color: \"#2196F3\"\n  android_12:\n    color: \"#2196F3\"\n".toList =
        some (C, "#2196F3".toList, D) ∧
      ("flutter_native_splash:\n  color: \"#2196F3\"\n  android_12:\n    color: \"#2196F3\"\n".toList : List Char) =
        C ++ "#2196F3".toList ++ D :=
  C2_amended "#2196F3".toList
    "flutter_native_splash:\n  color: \"#000000\"\n  android_12:\n    color: \"#000000\"\n".toList
    "flutter_native_splash:\n  color: \"#2196F3\"\n  android_12:\n    color: \"#2196F3\"\n".toList
    true (by decide) (by decide) (by decide)

/-- Claim C3 (counterexample): the input `0xffa1b2c3` with a lowercase alpha
prefix does not match `0xFF([0-9A-Fa-f]{6})` — only the six RGB digits are
case-insensitive, the literal `0xFF` is not — so extraction exits with the
declaration error rather than yielding `#A1B2C3`. -/
theorem C3_counterexample :
    extract_theme_hex "themePrimaryColorValue = 0xffa1b2c3".toList = .error declErr ∧
    (Except.error declErr : Except (List Char) (List Char)) ≠ .ok "#A1B2C3".toList := by
  refine ⟨by decide, by decide⟩

/-- Claim C3 (amended): extraction is case-insensitive on the six RGB hex
digits and always produces uppercase output — `0xFFa1b2c3` and `0xFFA1B2C3`
both yield `#A1B2C3` — but the alpha prefix `0xFF` is matched literally, so
`0xffa1b2c3` makes extraction fail. -/
theorem C3_amended :
    extract_theme_hex "themePrimaryColorValue = 0xFFa1b2c3".toList = .ok "#A1B2C3".toList ∧
    extract_theme_hex "themePrimaryColorValue = 0xFFA1B2C3".toList = .ok "#A1B2C3".toList ∧
    extract_theme_hex "themePrimaryColorValue = 0xffa1b2c3".toList = .error declErr := by
  refine ⟨by decide, by decide, by decide⟩

/-- Claim C4: when the root pattern or the android_12 pattern has no match in
the manifest text, `update_pubspec` fails with the fatal configuration error
and `main` leaves both files untouched — no partially substituted text is
written or returned as a success. -/
theorem C4_zero_match_fails (app t hex : List Char)
    (hext : extract_theme_hex app = .ok hex)
    (hzero : scanWith tryRootAt true t = none ∨ scanWith tryA12At true t = none) :
    update_pubspec hex t = .error pubspecErr ∧
    main_run ⟨app, t⟩ = (⟨app, t⟩, .error pubspecErr) := by
  obtain ⟨hhne, hha⟩ := extract_shape hext
  have hup : update_pubspec hex t = .error pubspecErr := by
    rcases hroot : scanWith tryRootAt true t with _ | ⟨a, v, b⟩
    · simp [update_pubspec, subnRoot, hroot]
    · rcases hzero with hnone | hnone
      · rw [hroot] at hnone
        exact absurd hnone (by simp)
      · obtain ⟨ht, hvne, hva, ⟨a₀, ha₀⟩, ⟨b₀, hb₀⟩⟩ := scanRoot_sound hroot
        have S := scanWith_swap tryA12At v hex b₀ hva hha
          (tryA12_swap v hex b₀ hvne hva hhne hha) a₀ true
        have e1 : a₀ ++ '"' :: (v ++ '"' :: b₀) = t := by
          rw [ht, ha₀, hb₀]; simp
        have e2 : a₀ ++ '"' :: (hex ++ '"' :: b₀) = a ++ hex ++ b := by
          rw [ha₀, hb₀]; simp
        rw [e1, e2] at S
        rcases S with ⟨h1, h2⟩ | ⟨α, μ, β, h1, -⟩ | ⟨h1, -⟩ | ⟨y₁, μ, b₂, h1, -⟩
        · have h2' : scanWith tryA12At true (a ++ (hex ++ b)) = none := by
            rw [← List.append_assoc]; exact h2
          simp [update_pubspec, subnRoot, subnA12, hroot, h2, h2']
        · rw [hnone] at h1; exact absurd h1 (by simp)
        · rw [hnone] at h1; exact absurd h1 (by simp)
        · rw [hnone] at h1; exact absurd h1 (by simp)
  exact ⟨hup, by simp [main_run, hext, hup]⟩

/-- Claim C4 (witness): a manifest with a root color line but no android_12
section makes the update fail and `main` leave the files unchanged. -/
theorem C4_witness :
    update_pubspec "#2196F3".toList "flutter_native_splash:\n  color: \"#000000\"\n".toList =
      .error pubspecErr ∧
    main_run ⟨"const int themePrimaryColorValue = 0xFF2196F3;\n".toList,
      "flutter_native_splash:\n  color: \"#000000\"\n".toList⟩ =
      (⟨"const int themePrimaryColorValue = 0xFF2196F3;\n".toList,
        "flutter_native_splash:\n  color: \"#000000\"\n".toList⟩, .error pubspecErr) :=
  C4_zero_match_fails "const int themePrimaryColorValue = 0xFF2196F3;\n".toList
    "flutter_native_splash:\n  color: \"#000000\"\n".toList "#2196F3".toList
    (by decide) (Or.inr (by decide))

/-- Claim C5: `update_pubspec` is idempotent and detects the synchronized
case: a second application with the same well-formed color returns the same
text with `changed = false`; and whenever the output equals the input (both
fields already held the target color), `changed` is `false` — the file is
only overwritten when the text actually changes. -/
theorem C5_idempotent (hex t t' : List Char) (ch : Bool) (hne : hex ≠ [])
    (hva : hex.all isValC = true) (h : update_pubspec hex t = .ok (t', ch)) :
    update_pubspec hex t' = .ok (t', false) ∧ (t' = t → ch = false) := by
  constructor
  · obtain ⟨A, B, C, D, hA, hAe, hC, hCe⟩ := update_resync hne hva h
    have hsub1 : subnRoot hex t' = (t', 1) := by
      simp only [subnRoot, hA]
      rw [← hAe]
    have hsub2 : subnA12 hex t' = (t', 1) := by
      simp only [subnA12, hC]
      rw [← hCe]
    rw [update_pubspec, hsub1, hsub2]
    simp
  · obtain ⟨a, v, b, c, u, d, -, -, -, hch⟩ := update_ok_inv h
    exact hch

/-- Claim C5 (witness): idempotence on the standard manifest. -/
theorem C5_witness :
    update_pubspec "#2196F3".toList
      "flutter_native_splash:\n  color: \"#2196F3\"\n  android_12:\n    color: \"#2196F3\"\n".toList =
      .ok ("flutter_native_splash:\n  color: \"#2196F3\"\n  android_12:\n    color: \"#2196F3\"\n".toList,
        false) ∧
    ("flutter_native_splash:\n  color: \"#2196F3\"\n  android_12:\n    color: \"#2196F3\"\n".toList =
        ("flutter_native_splash:\n  color: \"#000000\"\n  android_12:\n    color: \"#000000\"\n".toList : List Char) →
      true = false) :=
  C5_idempotent "#2196F3".toList
    "flutter_native_splash:\n  color: \"#000000\"\n  android_12:\n    color: \"#000000\"\n".toList
    "flutter_native_splash:\n  color: \"#2196F3\"\n  android_12:\n    color: \"#2196F3\"\n".toList
    true (by decide) (by decide) (by decide)

/-- Claim C6: a successful update rewrites exactly the value of the first
(leftmost) match of each pattern and nothing else.  The output decomposes as
the input with only the two first-matched quoted values replaced; all earlier
line-start positions admit no match (so the occurrence rewritten is the first
one), and every later occurrence sits inside the untouched remainder `b`
resp. `d`, which is preserved byte for byte. -/
theorem C6_first_occurrence (hex t t' : List Char) (ch : Bool)
    (h : update_pubspec hex t = .ok (t', ch)) :
    ∃ a v b c u d,
      scanWith tryRootAt true t = some (a, v, b) ∧ t = a ++ v ++ b ∧
      scanWith tryA12At true (a ++ hex ++ b) = some (c, u, d) ∧
      a ++ hex ++ b = c ++ u ++ d ∧ t' = c ++ hex ++ d ∧
      (∃ sk pre, a = sk ++ pre ∧ tryRootAt (pre ++ v ++ b) = some (pre, v, b) ∧
        ∀ x y', sk = x ++ y' → y' ≠ [] → (x = [] ∨ ∃ x', x = x' ++ ['\n']) →
          tryRootAt (y' ++ (pre ++ v ++ b)) = none) ∧
      (∃ sk pre, c = sk ++ pre ∧ tryA12At (pre ++ u ++ d) = some (pre, u, d) ∧
        ∀ x y', sk = x ++ y' → y' ≠ [] → (x = [] ∨ ∃ x', x = x' ++ ['\n']) →
          tryA12At (y' ++ (pre ++ u ++ d)) = none) := by
  obtain ⟨a, v, b, c, u, d, hroot, ha12, ht', -⟩ := update_ok_inv h
  obtain ⟨sk1, pre1, hsk1, htr1, hteq1, hfirst1⟩ :=
    scanWith_decomp tryRootAt (fun s p u q h' => (tryRootAt_sound h').1) t true a v b hroot
  obtain ⟨sk2, pre2, hsk2, htr2, hteq2, hfirst2⟩ :=
    scanWith_decomp tryA12At (fun s p u q h' => (tryA12At_sound h').1) (a ++ hex ++ b)
      true c u d ha12
  refine ⟨a, v, b, c, u, d, hroot, by simpa [List.append_assoc, hsk1] using hteq1, ha12,
    by simpa [List.append_assoc, hsk2] using hteq2, ht',
    ⟨sk1, pre1, hsk1, htr1, ?_⟩, ⟨sk2, pre2, hsk2, htr2, ?_⟩⟩
  · intro x y' hxy hyne hcond
    refine hfirst1 x y' hxy hyne ?_
    rcases hcond with hx | hx
    · exact Or.inl ⟨hx, rfl⟩
    · exact Or.inr hx
  · intro x y' hxy hyne hcond
    refine hfirst2 x y' hxy hyne ?_
    rcases hcond with hx | hx
    · exact Or.inl ⟨hx, rfl⟩
    · exact Or.inr hx

/-- Claim C6 (witness): the frame theorem applied to a manifest containing a
second root-style color line, which is left untouched. -/
theorem C6_witness :
    ∃ a v b c u d,
      scanWith tryRootAt true
        "color: \"#000000\"\nandroid_12:\n  color: \"#000000\"\nfallback:\n  color: \"#ABCDEF\"\n".toList =
        some (a, v, b) ∧
      ("color: \"#000000\"\nandroid_12:\n  color: \"#000000\"\nfallback:\n  color: \"#ABCDEF\"\n".toList : List Char) =
        a ++ v ++ b ∧
      scanWith tryA12At true (a ++ "#2196F3".toList ++ b) = some (c, u, d) ∧
      a ++ "#2196F3".toList ++ b = c ++ u ++ d ∧
      ("color: \"#2196F3\"\nandroid_12:\n  color: \"#2196F3\"\nfallback:\n  color: \"#ABCDEF\"\n".toList : List Char) =
        c ++ "#2196F3".toList ++ d ∧
      (∃ sk pre, a = sk ++ pre ∧
        tryRootAt (pre ++ v ++ b) = some (pre, v, b) ∧
        ∀ x y', sk = x ++ y' → y' ≠ [] → (x = [] ∨ ∃ x', x = x' ++ ['\n']) →
          tryRootAt (y' ++ (pre ++ v ++ b)) = none) ∧
      (∃ sk pre, c = sk ++ pre ∧ tryA12At (pre ++ u ++ d) = some (pre, u, d) ∧
        ∀ x y', sk = x ++ y' → y' ≠ [] → (x = [] ∨ ∃ x', x = x' ++ ['\n']) →
          tryA12At (y' ++ (pre ++ u ++ d)) = none) :=
  C6_first_occurrence "#2196F3".toList
    "color: \"#000000\"\nandroid_12:\n  color: \"#000000\"\nfallback:\n  color: \"#ABCDEF\"\n".toList
    "color: \"#2196F3\"\nandroid_12:\n  color: \"#2196F3\"\nfallback:\n  color: \"#ABCDEF\"\n".toList
    true (by decide)

/-- Claim C7 (counterexample): a manifest missing only the android_12 field
and a manifest missing the root field produce the very same `SystemExit`
message — the two failures are not distinguishable, contrary to the claim of
distinct RootFieldNotFound / NestedFieldNotFound errors. -/
theorem C7_counterexample :
    update_pubspec "#2196F3".toList "color: \"#000000\"\n".toList = .error pubspecErr ∧
    update_pubspec "#2196F3".toList "name: app\n".toList = .error pubspecErr := by
  refine ⟨by decide, by decide⟩

/-- Claim C7 (amended): every failure of `update_pubspec` carries the single
combined message naming both expected entries; there is exactly one error
value, so missing-root and missing-nested failures are indistinguishable. -/
theorem C7_amended (hex t e : List Char)
    (h : update_pubspec hex t = .error e) : e = pubspecErr := by
  rw [update_pubspec] at h
  split at h
  · simpa using h.symm
  · split at h <;> exact absurd h (by simp)

/-- Claim C7 (witness): the amended theorem applied to a failing manifest. -/
theorem C7_witness : pubspecErr = pubspecErr :=
  C7_amended "#2196F3".toList "color: \"#000000\"\n".toList pubspecErr (by decide)

/-- Claim C8 (counterexample): a manifest whose two color fields hold the
empty quoted value `""` is rejected with the field-not-found error — the
value class `[#0-9A-Fa-f]+` requires at least one character, so empty values
are not located, contrary to the claim. -/
theorem C8_counterexample :
    update_pubspec "#2196F3".toList "color: \"\"\nandroid_12:\n  color: \"\"\n".toList =
      .error pubspecErr := by
  decide

/-- Claim C8 (amended): a quoted color value is recognized only when it is a
nonempty string of `#` and hex digits: the same manifest with `"#000000"`
values is accepted and rewritten, while empty `""` values trigger the fatal
field-not-found error. -/
theorem C8_amended :
    update_pubspec "#2196F3".toList "color: \"\"\nandroid_12:\n  color: \"\"\n".toList =
      .error pubspecErr ∧
    update_pubspec "#2196F3".toList
      "color: \"#000000\"\nandroid_12:\n  color: \"#000000\"\n".toList =
      .ok ("color: \"#2196F3\"\nandroid_12:\n  color: \"#2196F3\"\n".toList, true) := by
  refine ⟨by decide, by decide⟩

/-- Claim C9: end-to-end run on the documented scenario.  With the
declaration holding `0xFF2196F3` and both manifest fields `"#000000"`, the
first run rewrites both fields to `#2196F3` and prints
`Splash color updated: #2196F3`; a second run changes no file and prints
`Splash color already in sync: #2196F3`. -/
theorem C9_end_to_end :
    main_run ⟨"const int themePrimaryColorValue = 0xFF2196F3;\n".toList,
      "flutter_native_splash:\n  color: \"#000000\"\n  android_12:\n    color: \"#000000\"\n".toList⟩ =
      (⟨"const int themePrimaryColorValue = 0xFF2196F3;\n".toList,
        "flutter_native_splash:\n  color: \"#2196F3\"\n  android_12:\n    color: \"#2196F3\"\n".toList⟩,
       .ok "Splash color updated: #2196F3".toList) ∧
    main_run ⟨"const int themePrimaryColorValue = 0xFF2196F3;\n".toList,
      "flutter_native_splash:\n  color: \"#2196F3\"\n  android_12:\n    color: \"#2196F3\"\n".toList⟩ =
      (⟨"const int themePrimaryColorValue = 0xFF2196F3;\n".toList,
        "flutter_native_splash:\n  color: \"#2196F3\"\n  android_12:\n    color: \"#2196F3\"\n".toList⟩,
       .ok "Splash color already in sync: #2196F3".toList) := by
  refine ⟨by decide, by decide⟩

/-- Claim C10: the root pattern recognizes a color field only when the quoted
value is a nonempty string over `#` and the hex digits; a manifest whose only
color-shaped line holds the value `none` has zero root matches and fails with
the fatal field-not-found error. -/
theorem C10_value_syntax :
    (∀ s a v b, tryRootAt s = some (a, v, b) → v ≠ [] ∧ v.all isValC = true) ∧
    update_pubspec "#2196F3".toList "flutter_native_splash:\n  color: \"none\"\n".toList =
      .error pubspecErr := by
  refine ⟨fun s a v b h => ⟨(tryRootAt_sound h).2.1, (tryRootAt_sound h).2.2.1⟩, by decide⟩

/-- Claim C10 (witness): the recognized-value condition instantiated at a
concrete accepted line. -/
theorem C10_witness :
    ("#000000".toList : List Char) ≠ [] ∧ "#000000".toList.all isValC = true :=
  C10_value_syntax.1 "color: \"#000000\"".toList "color: \"".toList "#000000".toList
    "\"".toList (by decide)
